import Mathlib

/-!
Verification development for the monkeyh job-queue repository.

The storage tables of `database.py` are modelled as Lean lists:
the `users_h` table as a `List UserRec` and the `generation_queue_h`
table as a `List JobRecord`. Each Python function of `database.py`
becomes a pure Lean function that takes the table state (plus, where
the original reads the clock or lets the database generate a value,
an explicit parameter for that value) and returns the new table state
together with the value the Python function returns. The relevant
portion of the Stripe webhook handler of `stripe_server.py` is
modelled as a function over the already-parsed metadata fields.
-/

namespace Monkeyh

/-- A row of the `users_h` table. -/
structure UserRec where
  user_id : Int
  points : Int
  referred_by : Option Int
  priority_level : Int
deriving DecidableEq, Repr

/-- A row of the `generation_queue_h` table. `workflow_content` and
`output_files_urls` stay at their stored (serialized) representation;
timestamps are abstract `Nat` ticks. -/
structure JobRecord where
  id : Nat
  user_id : Int
  chat_id : Int
  message_id : Int
  filepath : String
  workflow_content : String
  selected_workflow_name : String
  status : String
  priority_level : Int
  created_at : Nat
  started_at : Option Nat
  completed_at : Option Nat
  output_files_urls : Option (List String)
  error_message : Option String
deriving DecidableEq, Repr

/-- Python `get_user`: first row of `users_h` whose `user_id` matches, else none. -/
def get_user (users : List UserRec) (uid : Int) : Option UserRec :=
  users.find? (fun u => u.user_id == uid)

/-- Python `update_user_points`: reads the user, adds `amount` to the points and
writes the row back; returns the updated row, or `none` when the user does
not exist (no mutation in that case). -/
def update_user_points (users : List UserRec) (uid : Int) (amount : Int) :
    List UserRec × Option UserRec :=
  match get_user users uid with
  | none => (users, none)
  | some u =>
      (users.map (fun v =>
        if v.user_id == uid then { v with points := u.points + amount } else v),
       some { u with points := u.points + amount })

/-- Python `get_user_points`: current points of a user, `0` when the user is absent. -/
def get_user_points (users : List UserRec) (uid : Int) : Int :=
  match get_user users uid with
  | some u => u.points
  | none => 0

/-- Python `get_user_priority`: current priority level, default `2` when absent. -/
def get_user_priority (users : List UserRec) (uid : Int) : Int :=
  match get_user users uid with
  | some u => u.priority_level
  | none => 2

/-- Python `update_user_priority`: writes `new_priority_level` only when it is
strictly smaller than the current level; returns whether the update was
applied. A missing user yields `false` with no mutation. -/
def update_user_priority (users : List UserRec) (uid : Int)
    (new_priority_level : Int) : List UserRec × Bool :=
  match get_user users uid with
  | none => (users, false)
  | some u =>
      if new_priority_level < u.priority_level then
        (users.map (fun v =>
          if v.user_id == uid then { v with priority_level := new_priority_level } else v),
         true)
      else (users, false)

/-- Python `add_generation_job`: inserts a new row with status `pending`.
The database-generated id and `created_at` timestamp are explicit
parameters; the returned value is the new row id. -/
def add_generation_job (q : List JobRecord) (uid chat msg : Int)
    (fp wf name : String) (prio : Int) (jid created : Nat) :
    List JobRecord × Option Nat :=
  (q ++ [{ id := jid, user_id := uid, chat_id := chat, message_id := msg,
           filepath := fp, workflow_content := wf,
           selected_workflow_name := name, status := "pending",
           priority_level := prio, created_at := created,
           started_at := none, completed_at := none,
           output_files_urls := none, error_message := none }],
   some jid)

/-- Strict comparison used by the phase-1 query of
`get_next_generation_job`: `a` comes strictly before `b` in the
`order by priority_level asc, created_at asc` ordering. -/
def better (a b : JobRecord) : Bool :=
  a.priority_level < b.priority_level ||
    (a.priority_level == b.priority_level && a.created_at < b.created_at)

/-- One step of taking the stable minimum for the phase-1 query. -/
def minStep (acc : Option JobRecord) (r : JobRecord) : Option JobRecord :=
  match acc with
  | none => some r
  | some m => if better r m then some r else some m

/-- Phase 1 of `get_next_generation_job`: the `pending` row that comes
first under `(priority_level asc, created_at asc)`, earliest-inserted row
winning ties. -/
def selectNextPending (q : List JobRecord) : Option JobRecord :=
  (q.filter (fun r => r.status == "pending")).foldl minStep none

/-- Whether the phase-2 conditional update
(`eq id` and `eq status pending`) matches at least one row, i.e.
whether `update_response.data` is nonempty. -/
def condApplied (q : List JobRecord) (jid : Nat) : Bool :=
  q.any (fun r => r.id == jid && r.status == "pending")

/-- The new field values written by the phase-2 conditional update. -/
def claimedRow (r : JobRecord) (now : Nat) : JobRecord :=
  { r with status := "processing", started_at := some now }

/-- Effect of the phase-2 conditional update: every row with the given id
that is still `pending` becomes `processing` with `started_at` set. -/
def applyClaim (q : List JobRecord) (jid : Nat) (now : Nat) : List JobRecord :=
  q.map (fun r =>
    if r.id == jid && r.status == "pending" then claimedRow r now else r)

/-- Python `get_next_generation_job`: select the best pending row, then attempt
the conditional update; return the row read in phase 1 when the update
applied, `none` otherwise (empty queue or lost race). -/
def get_next_generation_job (q : List JobRecord) (now : Nat) :
    List JobRecord × Option JobRecord :=
  match selectNextPending q with
  | none => (q, none)
  | some job =>
      if condApplied q job.id then (applyClaim q job.id now, some job)
      else (q, none)

/-- Row effect of `update_generation_job_status`: the `update_data`
dictionary applied to one row. `completed` sets `completed_at` and, when
the url list is nonempty (truthy), `output_files_urls`; the other
terminal statuses set `completed_at` and overwrite `error_message`; any
other status value only overwrites `status`. -/
def applyResolve (r : JobRecord) (status : String) (urls : List String)
    (err : Option String) (now : Nat) : JobRecord :=
  if status == "completed" then
    { r with status := status, completed_at := some now,
             output_files_urls :=
               if urls != [] then some urls else r.output_files_urls }
  else if status == "failed" || status == "refunded" || status == "canceled" then
    { r with status := status, completed_at := some now, error_message := err }
  else { r with status := status }

/-- Python `update_generation_job_status`: unconditional update of every row
whose id matches; no status precondition is checked. -/
def update_generation_job_status (q : List JobRecord) (jid : Nat)
    (status : String) (urls : List String) (err : Option String)
    (now : Nat) : List JobRecord :=
  q.map (fun r => if r.id == jid then applyResolve r status urls err now else r)

/-- The projection of a job row returned by
`get_uncompleted_processing_jobs`
(`select id, user_id, chat_id, filepath, selected_workflow_name`). -/
structure StaleJobView where
  id : Nat
  user_id : Int
  chat_id : Int
  filepath : String
  selected_workflow_name : String
deriving DecidableEq, Repr

/-- Column projection of the recovery-sweep query. -/
def projStale (r : JobRecord) : StaleJobView :=
  { id := r.id, user_id := r.user_id, chat_id := r.chat_id,
    filepath := r.filepath,
    selected_workflow_name := r.selected_workflow_name }

/-- Python `get_uncompleted_processing_jobs`: the rows with status `processing`,
projected to the five selected columns. -/
def get_uncompleted_processing_jobs (q : List JobRecord) : List StaleJobView :=
  (q.filter (fun r => r.status == "processing")).map projStale

/-! ### Storage-failure boundary

The Python functions wrap each storage call in try/except. To reason
about how a raised storage exception is reported to the caller, the
outcome of the underlying storage call is made explicit: `ok` carries
what a healthy call would return, `err` is a raised exception. -/

/-- Outcome of one underlying storage call. -/
inductive StoreOutcome (α : Type) where
  | ok (a : α)
  | err
deriving DecidableEq

/-- Function `get_user` at the failure boundary: a raised select is caught and
turned into `none`, exactly like an empty result set. -/
def get_user_r (sel : StoreOutcome (List UserRec)) : Option UserRec :=
  match sel with
  | .ok rows => rows.head?
  | .err => none

/-- Function `get_user_points` at the failure boundary: the `none` coming out of
`get_user` — whether from a missing row or a raised storage call —
becomes the balance `0`. -/
def get_user_points_r (sel : StoreOutcome (List UserRec)) : Int :=
  match get_user_r sel with
  | some u => u.points
  | none => 0

/-- Function `get_user_priority` at the failure boundary. -/
def get_user_priority_r (sel : StoreOutcome (List UserRec)) : Int :=
  match get_user_r sel with
  | some u => u.priority_level
  | none => 2

/-- Function `add_generation_job` at the failure boundary: the insert either
returns the new row id, returns no data, or raises; the function returns
the id on success and `none` on both failure shapes. -/
def add_generation_job_r (ins : StoreOutcome (Option Nat)) : Option Nat :=
  match ins with
  | .ok (some jid) => some jid
  | .ok none => none
  | .err => none

/-- Function `update_generation_job_status` at the failure boundary: the Python
function logs and returns `None` whether the update succeeded, matched
no row, or raised. -/
def update_generation_job_status_r (upd : StoreOutcome Bool) : Unit :=
  match upd with
  | .ok _ => ()
  | .err => ()

/-! ### Stripe webhook (metadata-processing portion of `stripe_webhook`)

A field of the session metadata is modelled after the `int(...)`
conversion attempt: `some n` when the string converts to the integer
`n`, `none` when it is missing or malformed. `package_valid` stands for
`package_id in POINT_PACKAGES`. -/

/-- Parsed metadata of a `checkout.session.completed` event. -/
structure WebhookMeta where
  telegram_id : Option Int
  package_valid : Bool
  points_awarded : Option Int
  priority_boost : Option Int
deriving DecidableEq

/-- HTTP response of the webhook handler. -/
inductive WebhookResp where
  | ok
  | badRequest
deriving DecidableEq, Repr

/-- The credit-granting portion of `stripe_webhook`: a malformed
telegram id is rejected with a 400 before any database call; a malformed
`points_awarded` is replaced by `0` and a malformed `priority_boost` by
`2`, after which the points update and the priority update run against
the users table; an unknown package id performs no mutation. -/
def stripe_webhook_credit (users : List UserRec) (m : WebhookMeta) :
    List UserRec × WebhookResp :=
  match m.telegram_id with
  | none => (users, .badRequest)
  | some uid =>
      let pts := match m.points_awarded with
        | some n => n
        | none => 0
      let boost := match m.priority_boost with
        | some n => n
        | none => 2
      if m.package_valid then
        let s1 := (update_user_points users uid pts).1
        let s2 := (update_user_priority s1 uid boost).1
        (s2, .ok)
      else (users, .ok)

/-! ### Ordering facts about the phase-1 selection -/

/-- Row `a` comes no later than `b` in the `(priority_level asc, created_at
asc)` ordering. -/
def keyLe (a b : JobRecord) : Prop :=
  a.priority_level < b.priority_level ∨
    (a.priority_level = b.priority_level ∧ a.created_at ≤ b.created_at)

lemma keyLe_refl (a : JobRecord) : keyLe a a :=
  Or.inr ⟨rfl, le_refl _⟩

lemma keyLe_trans {a b c : JobRecord} (h1 : keyLe a b) (h2 : keyLe b c) :
    keyLe a c := by
  unfold keyLe at h1 h2 ⊢
  rcases h1 with h1 | ⟨e1, l1⟩ <;> rcases h2 with h2 | ⟨e2, l2⟩
  · exact Or.inl (by omega)
  · exact Or.inl (by omega)
  · exact Or.inl (by omega)
  · exact Or.inr ⟨by omega, by omega⟩

lemma better_eq_true_iff (a b : JobRecord) : better a b = true ↔
    (a.priority_level < b.priority_level ∨
      (a.priority_level = b.priority_level ∧ a.created_at < b.created_at)) := by
  simp [better]

lemma keyLe_of_better {a b : JobRecord} (h : better a b = true) : keyLe a b := by
  rcases (better_eq_true_iff a b).mp h with h | ⟨e, l⟩
  · exact Or.inl h
  · exact Or.inr ⟨e, Nat.le_of_lt l⟩

lemma keyLe_of_not_better {a b : JobRecord} (h : ¬ better a b = true) :
    keyLe b a := by
  rw [better_eq_true_iff] at h
  push_neg at h
  unfold keyLe
  omega

/-- Specification of the stable-minimum fold behind `selectNextPending`:
any produced row is in the list (or was the accumulator) and comes no
later than every list element and than the accumulator. -/
lemma min_fold (l : List JobRecord) :
    ∀ (acc : Option JobRecord) (m : JobRecord), l.foldl minStep acc = some m →
      (m ∈ l ∨ acc = some m) ∧ (∀ r ∈ l, keyLe m r) ∧
        (∀ a, acc = some a → keyLe m a) := by
  induction l with
  | nil =>
      intro acc m h
      simp only [List.foldl_nil] at h
      refine ⟨Or.inr h, by simp, ?_⟩
      intro a ha
      rw [h] at ha
      cases ha
      exact keyLe_refl m
  | cons r t ih =>
      intro acc m h
      simp only [List.foldl_cons] at h
      obtain ⟨hmem, hall, hacc⟩ := ih (minStep acc r) m h
      have hr : keyLe m r := by
        cases acc with
        | none => exact hacc r rfl
        | some m0 =>
            by_cases hb : better r m0 = true
            · exact hacc r (by simp [minStep, hb])
            · exact keyLe_trans (hacc m0 (by simp [minStep, hb]))
                (keyLe_of_not_better hb)
      refine ⟨?_, ?_, ?_⟩
      · rcases hmem with hm | hm
        · exact Or.inl (List.mem_cons_of_mem _ hm)
        · cases acc with
          | none =>
              have : r = m := by simpa [minStep] using hm
              exact Or.inl (this ▸ List.mem_cons_self _ _)
          | some m0 =>
              by_cases hb : better r m0 = true
              · have : r = m := by simpa [minStep, hb] using hm
                exact Or.inl (this ▸ List.mem_cons_self _ _)
              · have : m0 = m := by simpa [minStep, hb] using hm
                exact Or.inr (this ▸ rfl)
      · intro x hx
        rcases List.mem_cons.mp hx with hx | hx
        · exact hx ▸ hr
        · exact hall x hx
      · intro a ha
        cases acc with
        | none => cases ha
        | some m0 =>
            cases ha
            by_cases hb : better r a = true
            · exact keyLe_trans (hacc r (by simp [minStep, hb]))
                (keyLe_of_better hb)
            · exact hacc a (by simp [minStep, hb])

/-- A row produced by phase 1 is a pending row of the table and comes no
later than every pending row in the scheduling order. -/
lemma selectNextPending_some_spec {q : List JobRecord} {m : JobRecord}
    (h : selectNextPending q = some m) :
    m ∈ q ∧ m.status = "pending" ∧
      ∀ r ∈ q, r.status = "pending" → keyLe m r := by
  unfold selectNextPending at h
  obtain ⟨hmem, hall, _⟩ := min_fold _ none m h
  rcases hmem with hm | hm
  · have hmq := List.mem_filter.mp hm
    refine ⟨hmq.1, by simpa using hmq.2, ?_⟩
    intro r hr hrp
    exact hall r (List.mem_filter.mpr ⟨hr, by simp [hrp]⟩)
  · cases hm

/-- Once the fold holds a candidate it keeps producing one. -/
lemma foldl_minStep_isSome (t : List JobRecord) :
    ∀ m : JobRecord, ∃ m2, t.foldl minStep (some m) = some m2 := by
  induction t with
  | nil => intro m; exact ⟨m, rfl⟩
  | cons r t ih =>
      intro m
      simp only [List.foldl_cons]
      by_cases hb : better r m = true
      · simpa [minStep, hb] using ih r
      · simpa [minStep, hb] using ih m

/-- Phase 1 finds nothing exactly when no row is pending. -/
lemma selectNextPending_eq_none_iff (q : List JobRecord) :
    selectNextPending q = none ↔ ∀ r ∈ q, r.status ≠ "pending" := by
  constructor
  · intro h r hr hrp
    unfold selectNextPending at h
    rcases hfil : q.filter (fun r => r.status == "pending") with _ | ⟨x, t⟩
    · have := List.filter_eq_nil_iff.mp hfil r hr
      simp [hrp] at this
    · rw [hfil] at h
      simp only [List.foldl_cons] at h
      obtain ⟨m2, hm2⟩ := foldl_minStep_isSome t x
      rw [show minStep none x = some x from rfl, hm2] at h
      cases h
  · intro h
    unfold selectNextPending
    have : q.filter (fun r => r.status == "pending") = [] := by
      rw [List.filter_eq_nil_iff]
      intro r hr
      simp [h r hr]
    rw [this]
    rfl

/-! ### Facts about the users-table operations -/

/-- Updating the rows matching `uid` with an id-preserving row function
commutes with the row lookup. -/
lemma get_user_map_update (users : List UserRec) (uid : Int)
    (f : UserRec → UserRec) (hf : ∀ v, (f v).user_id = v.user_id) :
    get_user (users.map (fun v => if v.user_id == uid then f v else v)) uid
      = match get_user users uid with
        | some u => some (f u)
        | none => none := by
  unfold get_user
  rw [List.find?_map]
  have hp : ((fun u : UserRec => u.user_id == uid) ∘
      (fun v => if v.user_id == uid then f v else v))
      = (fun u : UserRec => u.user_id == uid) := by
    funext v
    by_cases hv : (v.user_id == uid) = true
    · simp [Function.comp, hv, hf]
    · simp [Function.comp, hv]
  rw [hp]
  cases hfind : users.find? (fun u => u.user_id == uid) with
  | none => rfl
  | some u =>
      have hu := List.find?_some hfind
      have hu2 : u.user_id = uid := by simpa using hu
      simp [hu2]

/-- Concrete user row for witnesses. -/
def sampleUser (pts prio : Int) : UserRec :=
  { user_id := 7, points := pts, referred_by := none, priority_level := prio }

/-- Concrete zero-balance default-priority row for a given id. -/
def sampleZero (uid : Int) : UserRec :=
  { user_id := uid, points := 0, referred_by := none, priority_level := 2 }

/-- Concrete job row for witnesses. -/
def sampleJob (jid : Nat) (prio : Int) (created : Nat) (st : String) : JobRecord :=
  { id := jid, user_id := 7, chat_id := 8, message_id := 9, filepath := "f",
    workflow_content := "wf", selected_workflow_name := "w", status := st,
    priority_level := prio, created_at := created, started_at := none,
    completed_at := none, output_files_urls := none, error_message := none }

/-- After a balance update on an existing row, the stored row carries the
new balance. -/
lemma get_user_after_update_points {users : List UserRec} {uid : Int}
    {u : UserRec} (amount : Int) (h : get_user users uid = some u) :
    get_user ((update_user_points users uid amount).1) uid
      = some { u with points := u.points + amount } := by
  simp only [update_user_points, h]
  rw [get_user_map_update users uid
    (fun v => { v with points := u.points + amount }) (fun v => rfl), h]

lemma get_user_points_after_update {users : List UserRec} {uid : Int}
    {u : UserRec} (amount : Int) (h : get_user users uid = some u) :
    get_user_points ((update_user_points users uid amount).1) uid
      = u.points + amount := by
  unfold get_user_points
  rw [get_user_after_update_points amount h]

lemma update_user_priority_applied_iff (users : List UserRec) (uid np : Int) :
    (update_user_priority users uid np).2 = true ↔
      ∃ u, get_user users uid = some u ∧ np < u.priority_level := by
  cases hget : get_user users uid with
  | none => simp [update_user_priority, hget]
  | some u =>
      by_cases hlt : np < u.priority_level
      · simp [update_user_priority, hget, hlt]
      · simp [update_user_priority, hget, hlt]

lemma update_user_priority_false_unchanged (users : List UserRec)
    (uid np : Int) (h : (update_user_priority users uid np).2 = false) :
    (update_user_priority users uid np).1 = users := by
  cases hget : get_user users uid with
  | none => simp [update_user_priority, hget]
  | some u =>
      by_cases hlt : np < u.priority_level
      · simp [update_user_priority, hget, hlt] at h
      · simp [update_user_priority, hget, hlt]

lemma update_user_priority_monotone (users : List UserRec) (uid np : Int) :
    get_user_priority ((update_user_priority users uid np).1) uid ≤
      get_user_priority users uid := by
  cases hget : get_user users uid with
  | none => simp [update_user_priority, hget]
  | some u =>
      by_cases hlt : np < u.priority_level
      · simp only [update_user_priority, hget, if_pos hlt]
        unfold get_user_priority
        rw [get_user_map_update users uid
          (fun v => { v with priority_level := np }) (fun v => rfl), hget]
        simpa using le_of_lt hlt
      · simp [update_user_priority, hget, hlt]

/-- C5: `RaisePriorityIfBetter` applies exactly when the candidate tier
is strictly below the current tier of an existing account; a
non-applying call leaves the table unchanged and reports `false`; and
each call leaves the read priority no larger than before, so the tier is
monotonically non-increasing over any call sequence. -/
theorem raise_priority_if_better_spec (users : List UserRec) (uid np : Int) :
    ((update_user_priority users uid np).2 = true ↔
       ∃ u, get_user users uid = some u ∧ np < u.priority_level) ∧
    ((update_user_priority users uid np).2 = false →
       (update_user_priority users uid np).1 = users) ∧
    get_user_priority ((update_user_priority users uid np).1) uid ≤
       get_user_priority users uid :=
  ⟨update_user_priority_applied_iff users uid np,
   update_user_priority_false_unchanged users uid np,
   update_user_priority_monotone users uid np⟩

/-- Witness for C5: raising to tier 1 then offering tier 3 leaves the
account at tier 1 — the second call reports `false` and mutates nothing. -/
theorem raise_priority_if_better_witness :
    (update_user_priority (update_user_priority [sampleUser 0 2] 7 1).1 7 3).1
        = (update_user_priority [sampleUser 0 2] 7 1).1 ∧
      get_user_priority (update_user_priority [sampleUser 0 2] 7 1).1 7 = 1 :=
  ⟨(raise_priority_if_better_spec (update_user_priority [sampleUser 0 2] 7 1).1
      7 3).2.1 (by decide), by decide⟩

/-- C6: `ApplyBalanceDelta` on an existing account stores and returns the
old balance plus the delta; on a missing account it returns the
not-found marker and performs no mutation. -/
theorem apply_balance_delta_spec (users : List UserRec) (uid amount : Int) :
    (get_user users uid = none →
       update_user_points users uid amount = (users, none)) ∧
    (∀ u, get_user users uid = some u →
       (update_user_points users uid amount).2
           = some { u with points := u.points + amount } ∧
         get_user_points ((update_user_points users uid amount).1) uid
           = u.points + amount) := by
  constructor
  · intro h
    unfold update_user_points
    rw [h]
  · intro u h
    constructor
    · unfold update_user_points
      rw [h]
    · exact get_user_points_after_update amount h

/-- Witness for C6: balance 500 plus delta 2000 yields 2500, and a
delta against an absent account id returns `none` without mutation. -/
theorem apply_balance_delta_witness :
    get_user_points ((update_user_points [sampleUser 500 2] 7 2000).1) 7 = 2500 ∧
      update_user_points [sampleUser 500 2] 8 2000 = ([sampleUser 500 2], none) := by
  refine ⟨?_, ?_⟩
  · have h := ((apply_balance_delta_spec [sampleUser 500 2] 7 2000).2
      (sampleUser 500 2) (by decide)).2
    rw [h]
    decide
  · exact (apply_balance_delta_spec [sampleUser 500 2] 8 2000).1 (by decide)

/-- C10: reading the balance of a missing account returns 0 and reading
its priority returns the default tier 2, identical to the reads of an
existing zero-balance default-priority account — the two are not
distinguishable through these reads. -/
theorem missing_account_reads_default (users : List UserRec) (uid : Int)
    (h : get_user users uid = none) :
    get_user_points users uid = 0 ∧ get_user_priority users uid = 2 ∧
      get_user_points users uid = get_user_points [sampleZero uid] uid ∧
      get_user_priority users uid = get_user_priority [sampleZero uid] uid := by
  have hz : get_user [sampleZero uid] uid = some (sampleZero uid) := by
    simp [get_user, sampleZero]
  unfold get_user_points get_user_priority
  rw [h, hz]
  exact ⟨rfl, rfl, rfl, rfl⟩

/-- Witness for C10 at the empty users table and account id 7. -/
theorem missing_account_reads_default_witness :
    get_user_points [] 7 = 0 ∧ get_user_priority [] 7 = 2 ∧
      get_user_points [] 7 = get_user_points [sampleZero 7] 7 ∧
      get_user_priority [] 7 = get_user_priority [sampleZero 7] 7 :=
  missing_account_reads_default [] 7 rfl

/-- C2: when some row is pending, `get_next_generation_job` returns a
pending row that comes no later than every pending row in the
`(priority, createdAt)` order; when no row is pending it returns `none`
and leaves the table unchanged. -/
theorem claim_next_minimal (q : List JobRecord) (now : Nat) :
    ((∃ r ∈ q, r.status = "pending") →
       ∃ j, (get_next_generation_job q now).2 = some j ∧ j ∈ q ∧
         j.status = "pending" ∧
         ∀ r ∈ q, r.status = "pending" → keyLe j r) ∧
    ((∀ r ∈ q, r.status ≠ "pending") →
       get_next_generation_job q now = (q, none)) := by
  constructor
  · rintro ⟨r0, hr0, hr0p⟩
    cases hsel : selectNextPending q with
    | none =>
        exact absurd hr0p ((selectNextPending_eq_none_iff q).mp hsel r0 hr0)
    | some j =>
        obtain ⟨hjq, hjp, hjmin⟩ := selectNextPending_some_spec hsel
        have hca : condApplied q j.id = true := by
          unfold condApplied
          rw [List.any_eq_true]
          exact ⟨j, hjq, by simp [hjp]⟩
        refine ⟨j, ?_, hjq, hjp, hjmin⟩
        simp [get_next_generation_job, hsel, hca]
  · intro h
    simp [get_next_generation_job, (selectNextPending_eq_none_iff q).mpr h]

/-- Witness for C2 on the three-job example of the spec: jobs
A(priority 2, created 0), B(priority 1, created 1), C(priority 1,
created 2); a claim returns a minimal pending job. -/
theorem claim_next_minimal_witness :
    ∃ j, (get_next_generation_job
        [sampleJob 0 2 0 "pending", sampleJob 1 1 1 "pending",
         sampleJob 2 1 2 "pending"] 10).2 = some j ∧
      j ∈ [sampleJob 0 2 0 "pending", sampleJob 1 1 1 "pending",
           sampleJob 2 1 2 "pending"] ∧
      j.status = "pending" ∧
      ∀ r ∈ [sampleJob 0 2 0 "pending", sampleJob 1 1 1 "pending",
             sampleJob 2 1 2 "pending"],
        r.status = "pending" → keyLe j r :=
  (claim_next_minimal _ 10).1 ⟨sampleJob 0 2 0 "pending", by decide, by decide⟩

/-! ### Resolve: overwrite behaviour (C3, C4) -/

/-- Status of the row with a given id, `none` when absent. -/
def statusOf (q : List JobRecord) (jid : Nat) : Option String :=
  (q.find? (fun r => r.id == jid)).map (fun r => r.status)

lemma applyResolve_preserves_id (r : JobRecord) (st : String)
    (urls : List String) (err : Option String) (now : Nat) :
    (applyResolve r st urls err now).id = r.id := by
  unfold applyResolve
  split_ifs <;> rfl

lemma applyResolve_status (r : JobRecord) (st : String) (urls : List String)
    (err : Option String) (now : Nat) :
    (applyResolve r st urls err now).status = st := by
  unfold applyResolve
  split_ifs <;> rfl

lemma applyResolve_idem (r : JobRecord) (st : String) (urls : List String)
    (err : Option String) (now : Nat) :
    applyResolve (applyResolve r st urls err now) st urls err now
      = applyResolve r st urls err now := by
  unfold applyResolve
  split_ifs <;> rfl

/-- Counterexample to C3: a second `Resolve` of an already-completed job
is not a no-op on the record — the unconditional update overwrites
`completed_at` with the later call time, so the stored row differs from
the row after a single call. -/
theorem resolve_not_noop_on_terminal :
    update_generation_job_status
        (update_generation_job_status [sampleJob 0 1 0 "processing"]
          0 "completed" ["u"] none 1)
        0 "completed" ["u"] none 2
      ≠ update_generation_job_status [sampleJob 0 1 0 "processing"]
          0 "completed" ["u"] none 1 := by
  decide

/-- C3 (amended): `Resolve` is an unconditional per-row overwrite, so a
repeated call with identical arguments — including the call time — is
absorbed: applying `update_generation_job_status` twice with the same
id, status, urls, error and timestamp equals applying it once, and no
error is signalled. (A second call at a later time, or with a different
status, does change the record; see the counterexample.) -/
theorem resolve_overwrite_idempotent (q : List JobRecord) (jid : Nat)
    (st : String) (urls : List String) (err : Option String) (now : Nat) :
    update_generation_job_status
        (update_generation_job_status q jid st urls err now)
        jid st urls err now
      = update_generation_job_status q jid st urls err now := by
  unfold update_generation_job_status
  rw [List.map_map]
  have hfun : ((fun r : JobRecord =>
        if r.id == jid then applyResolve r st urls err now else r) ∘
      (fun r : JobRecord =>
        if r.id == jid then applyResolve r st urls err now else r))
      = (fun r : JobRecord =>
        if r.id == jid then applyResolve r st urls err now else r) := by
    funext r
    by_cases h : (r.id == jid) = true
    · simp [Function.comp, h, applyResolve_preserves_id, applyResolve_idem]
    · simp [Function.comp, h]
  rw [hfun]

/-! The status state machine under sequences of the three queue
operations. -/

/-- One Queue Service operation, with the database-generated values
(fresh id, timestamps) made explicit. -/
inductive QueueOp where
  | enq (uid chat msg : Int) (fp wf name : String) (prio : Int)
      (jid t : Nat)
  | claim (t : Nat)
  | resolve (jid : Nat) (st : String) (urls : List String)
      (err : Option String) (t : Nat)
deriving DecidableEq

/-- Apply one operation to the queue table. -/
def applyOp (q : List JobRecord) : QueueOp → List JobRecord
  | .enq uid chat msg fp wf name prio jid t =>
      (add_generation_job q uid chat msg fp wf name prio jid t).1
  | .claim t => (get_next_generation_job q t).1
  | .resolve jid st urls err t =>
      update_generation_job_status q jid st urls err t

/-- Whether a status string is one of the four terminal statuses. -/
def terminalStatusB (st : String) : Bool :=
  st == "completed" || st == "failed" || st == "refunded" || st == "canceled"

/-- Side conditions on an operation with respect to a record id `k`:
an insert never reuses `k` (ids are database-generated and unique) and a
resolve carries a terminal status, as the `Resolve` contract requires. -/
def opOkFor (k : Nat) : QueueOp → Bool
  | .enq _ _ _ _ _ _ _ jid _ => jid != k
  | .claim _ => true
  | .resolve _ st _ _ _ => terminalStatusB st

lemma terminal_ne_pending {st : String} (h : terminalStatusB st = true) :
    st ≠ "pending" := by
  simp only [terminalStatusB, Bool.or_eq_true, beq_iff_eq] at h
  rcases h with ((h | h) | h) | h <;> subst h <;> decide

/-- One well-formed operation cannot move the record `k` back to
`pending`. -/
lemma applyOp_preserves_nonpending (q : List JobRecord) (k : Nat)
    (op : QueueOp) (hop : opOkFor k op = true)
    (h : ∀ r ∈ q, r.id = k → r.status ≠ "pending") :
    ∀ r ∈ applyOp q op, r.id = k → r.status ≠ "pending" := by
  cases op with
  | enq uid chat msg fp wf name prio jid t =>
      intro r hr hk
      simp only [applyOp, add_generation_job, List.mem_append,
        List.mem_singleton] at hr
      rcases hr with hr | hr
      · exact h r hr hk
      · subst hr
        simp only [opOkFor, bne_iff_ne] at hop
        exact absurd hk hop
  | claim t =>
      cases hsel : selectNextPending q with
      | none => simpa [applyOp, get_next_generation_job, hsel] using h
      | some job =>
          by_cases hca : condApplied q job.id = true
          · simp only [applyOp, get_next_generation_job, hsel, hca, if_pos]
            intro r hr hk
            obtain ⟨r0, hr0, rfl⟩ := List.mem_map.mp hr
            by_cases hc : (r0.id == job.id && r0.status == "pending") = true
            · rw [if_pos hc]
              show "processing" ≠ "pending"
              decide
            · rw [if_neg hc] at hk ⊢
              exact h r0 hr0 hk
          · simpa [applyOp, get_next_generation_job, hsel, hca] using h
  | resolve jid st urls err t =>
      intro r hr hk
      simp only [applyOp, update_generation_job_status] at hr
      obtain ⟨r0, hr0, rfl⟩ := List.mem_map.mp hr
      by_cases hc : (r0.id == jid) = true
      · rw [if_pos hc]
        rw [applyResolve_status]
        exact terminal_ne_pending hop
      · rw [if_neg hc] at hk ⊢
        exact h r0 hr0 hk

/-- C4 (amended): under any sequence of Enqueue, ClaimNext and Resolve
operations in which inserts use fresh ids and every Resolve carries a
terminal status, a record that has left `pending` never returns to
`pending` — Enqueue only inserts new pending rows, ClaimNext only moves
a pending row to `processing`, and Resolve writes terminal statuses.
The rest of the original claim fails: Resolve overwrites
unconditionally, so a repeated Resolve does move a record from one
terminal status to another instead of being a no-op (see the
counterexample). -/
theorem status_never_returns_to_pending (ops : List QueueOp) (k : Nat)
    (hops : ∀ op ∈ ops, opOkFor k op = true) (q : List JobRecord)
    (h : ∀ r ∈ q, r.id = k → r.status ≠ "pending") :
    ∀ r ∈ ops.foldl applyOp q, r.id = k → r.status ≠ "pending" := by
  induction ops generalizing q with
  | nil => simpa using h
  | cons op t ih =>
      simp only [List.foldl_cons]
      exact ih (fun o ho => hops o (List.mem_cons_of_mem _ ho))
        (applyOp q op)
        (applyOp_preserves_nonpending q k op
          (hops op (List.mem_cons_self _ _)) h)

/-- Witness for the amended C4: resolving a processing record as
`failed` leaves the stored row out of `pending`. -/
theorem status_never_returns_to_pending_witness :
    ({ sampleJob 0 1 0 "processing" with
        status := "failed", completed_at := some 3 } : JobRecord).status
      ≠ "pending" :=
  status_never_returns_to_pending [QueueOp.resolve 0 "failed" [] none 3] 0
    (by decide) [sampleJob 0 1 0 "processing"] (by decide)
    ({ sampleJob 0 1 0 "processing" with
        status := "failed", completed_at := some 3 } : JobRecord)
    (by decide) (by decide)

/-- Counterexample to C4: the sequence Enqueue, ClaimNext,
Resolve(completed), Resolve(failed) moves the record between two
terminal statuses — the invalid transition is applied, not treated as a
no-op. -/
theorem terminal_to_terminal_applied :
    statusOf
        ((([QueueOp.enq 7 8 9 "f" "wf" "w" 1 0 0, QueueOp.claim 1,
            QueueOp.resolve 0 "completed" ["u"] none 2]).foldl applyOp [])) 0
        = some "completed" ∧
      statusOf
        ((([QueueOp.enq 7 8 9 "f" "wf" "w" 1 0 0, QueueOp.claim 1,
            QueueOp.resolve 0 "completed" ["u"] none 2,
            QueueOp.resolve 0 "failed" [] (some "boom") 3]).foldl applyOp []))
        0 = some "failed" := by
  decide

/-! ### C7: how storage failures reach the caller -/

/-- Counterexample to C7: when the underlying select raises, the balance
read returns `0` and the priority read returns `2` — exactly the values
returned for a healthy zero-balance default-priority account, so the
storage failure is silently swallowed, not reported as a typed failure. -/
theorem storage_failure_masked_as_defaults :
    get_user_points_r .err = get_user_points_r (.ok [sampleZero 7]) ∧
      get_user_priority_r .err = get_user_priority_r (.ok [sampleZero 7]) ∧
      get_user_points_r (.ok [sampleZero 7]) = 0 ∧
      get_user_priority_r (.ok [sampleZero 7]) = 2 := by
  decide

/-- C7 (amended): `Enqueue` does report a failed insert as `none`,
distinguishable from the id returned on success; but the policy is not
universal — the balance and priority reads collapse a raised storage
call into the defaults `0` and `2`, and `Resolve` returns nothing
whether or not its update failed, so those failures are swallowed. -/
theorem storage_failure_reporting (jid : Nat) :
    add_generation_job_r (.ok (some jid)) = some jid ∧
      add_generation_job_r .err = none ∧
      get_user_points_r .err = 0 ∧
      get_user_priority_r .err = 2 ∧
      ∀ o : StoreOutcome Bool, update_generation_job_status_r o = () :=
  ⟨rfl, rfl, rfl, rfl, fun _ => rfl⟩

/-! ### C8: the recovery sweep -/

/-- Counterexample to C8: two tables whose single processing rows differ
(in `message_id`) produce identical sweep results, so the sweep does not
return full `JobRecord`s — it projects to five columns. -/
theorem stale_listing_not_full_records :
    get_uncompleted_processing_jobs [sampleJob 0 1 0 "processing"]
        = get_uncompleted_processing_jobs
            [{ sampleJob 0 1 0 "processing" with message_id := 99 }] ∧
      sampleJob 0 1 0 "processing"
        ≠ { sampleJob 0 1 0 "processing" with message_id := 99 } := by
  decide

/-- C8 (amended): the sweep returns a five-column projection (id,
user id, chat id, filepath, workflow name) of exactly the rows whose
status is `processing`: an id appears in the sweep output exactly when
some row with that id is `processing`; a successfully claimed job
appears; and after resolving an id as `failed` no entry with that id
remains. -/
theorem list_stale_processing_spec :
    (∀ (q : List JobRecord) (k : Nat),
       (∃ v ∈ get_uncompleted_processing_jobs q, v.id = k) ↔
         ∃ r ∈ q, r.id = k ∧ r.status = "processing") ∧
    (∀ (q : List JobRecord) (t : Nat) (j : JobRecord),
       (get_next_generation_job q t).2 = some j →
         ∃ v ∈ get_uncompleted_processing_jobs
             ((get_next_generation_job q t).1), v.id = j.id) ∧
    (∀ (q : List JobRecord) (k : Nat) (urls : List String)
       (err : Option String) (t : Nat),
       ¬ ∃ v ∈ get_uncompleted_processing_jobs
           (update_generation_job_status q k "failed" urls err t),
         v.id = k) := by
  refine ⟨?_, ?_, ?_⟩
  · intro q k
    constructor
    · rintro ⟨v, hv, hvk⟩
      unfold get_uncompleted_processing_jobs at hv
      obtain ⟨r, hr, rfl⟩ := List.mem_map.mp hv
      obtain ⟨hrq, hrp⟩ := List.mem_filter.mp hr
      exact ⟨r, hrq, hvk, by simpa using hrp⟩
    · rintro ⟨r, hrq, hrk, hrp⟩
      refine ⟨projStale r, ?_, hrk⟩
      unfold get_uncompleted_processing_jobs
      exact List.mem_map_of_mem _ (List.mem_filter.mpr ⟨hrq, by simp [hrp]⟩)
  · intro q t j hclaim
    cases hsel : selectNextPending q with
    | none => simp [get_next_generation_job, hsel] at hclaim
    | some job =>
        by_cases hca : condApplied q job.id = true
        · have hj : job = j := by
            simpa [get_next_generation_job, hsel, hca] using hclaim
          subst hj
          obtain ⟨hjq, hjp, _⟩ := selectNextPending_some_spec hsel
          have h1 : (get_next_generation_job q t).1 = applyClaim q job.id t := by
            simp [get_next_generation_job, hsel, hca]
          rw [h1]
          have hcond : (job.id == job.id && job.status == "pending") = true := by
            simp [hjp]
          have hmem : claimedRow job t ∈ applyClaim q job.id t := by
            unfold applyClaim
            have hm := List.mem_map_of_mem
              (fun r : JobRecord =>
                if r.id == job.id && r.status == "pending" then claimedRow r t
                else r) hjq
            simpa [hcond, hjp] using hm
          refine ⟨projStale (claimedRow job t), ?_, rfl⟩
          unfold get_uncompleted_processing_jobs
          refine List.mem_map_of_mem _ (List.mem_filter.mpr ⟨hmem, by simp [claimedRow]⟩)
        · have hnone : (get_next_generation_job q t).2 = none := by
            simp [get_next_generation_job, hsel, hca]
          rw [hnone] at hclaim
          cases hclaim
  · intro q k urls err t
    rintro ⟨v, hv, hvk⟩
    unfold get_uncompleted_processing_jobs at hv
    obtain ⟨r, hr, rfl⟩ := List.mem_map.mp hv
    obtain ⟨hrq, hrp⟩ := List.mem_filter.mp hr
    unfold update_generation_job_status at hrq
    obtain ⟨r0, hr0, rfl⟩ := List.mem_map.mp hrq
    by_cases hc : (r0.id == k) = true
    · rw [if_pos hc] at hrp
      rw [applyResolve_status] at hrp
      simp at hrp
    · rw [if_neg hc] at hvk hrp
      simp only [projStale] at hvk
      exact hc (by simpa using hvk)

/-- Witness for the amended C8: one pending job, claimed, then visible
in the sweep output by its id. -/
theorem list_stale_processing_witness :
    ∃ v ∈ get_uncompleted_processing_jobs
        ((get_next_generation_job [sampleJob 0 1 0 "pending"] 5).1),
      v.id = (sampleJob 0 1 0 "pending").id :=
  list_stale_processing_spec.2.1 [sampleJob 0 1 0 "pending"] 5
    (sampleJob 0 1 0 "pending") (by decide)

/-! ### C9: malformed webhook input -/

/-- Counterexample to C9: a webhook event whose `points_awarded` and
`priority_boost` fail integer conversion is not rejected — the handler
substitutes `0` and `2` and mutates the account, here moving its
priority tier from 3 to 2; and a status string outside the closed set
(`bogus`) is not rejected either — the job-status update writes it to
the record. -/
theorem malformed_input_still_mutates :
    (stripe_webhook_credit [sampleUser 500 3]
        { telegram_id := some 7, package_valid := true,
          points_awarded := none, priority_boost := none }).1
        ≠ [sampleUser 500 3] ∧
      statusOf (update_generation_job_status [sampleJob 0 1 0 "processing"]
        0 "bogus" [] none 1) 0 = some "bogus" := by
  decide

/-- The job-status update rewrites the status of the first row with the
given id to exactly the string it was handed — whatever that string is —
and reports the same presence or absence of such a row. -/
lemma statusOf_update (q : List JobRecord) (jid : Nat) (st : String)
    (urls : List String) (err : Option String) (t : Nat) :
    statusOf (update_generation_job_status q jid st urls err t) jid
      = (statusOf q jid).map (fun _ => st) := by
  unfold statusOf update_generation_job_status
  rw [List.find?_map]
  have hp : ((fun r : JobRecord => r.id == jid) ∘
      (fun r => if r.id == jid then applyResolve r st urls err t else r))
      = (fun r : JobRecord => r.id == jid) := by
    funext r
    by_cases hr : (r.id == jid) = true
    · simp [Function.comp, hr, applyResolve_preserves_id]
    · simp [Function.comp, hr]
  rw [hp]
  cases hfind : q.find? (fun r => r.id == jid) with
  | none => rfl
  | some r =>
      have hr := List.find?_some hfind
      have hr2 : r.id = jid := by simpa using hr
      simp [hr2, applyResolve_status]

/-- After an applying priority update the stored row carries the new
tier. -/
lemma get_user_after_update_priority {users : List UserRec} {uid : Int}
    {u : UserRec} {np : Int} (h : get_user users uid = some u)
    (hlt : np < u.priority_level) :
    get_user ((update_user_priority users uid np).1) uid
      = some { u with priority_level := np } := by
  simp only [update_user_priority, h, if_pos hlt]
  rw [get_user_map_update users uid
    (fun v => { v with priority_level := np }) (fun v => rfl), h]

/-- C9 (amended): only the telegram id is validated and rejected before
any mutation (a malformed id yields a 400 response and an untouched
table); a malformed `points_awarded` is replaced by `0` and a malformed
`priority_boost` by `2`, and the ledger mutations then proceed with
those substituted defaults — the account keeps its balance but its
priority tier is overwritten with the default 2 whenever that is
better; and a status string outside the closed set is not rejected
either — the job-status update writes whatever string it is handed to
the matching record. -/
theorem webhook_validation_spec :
    (∀ (users : List UserRec) (m : WebhookMeta), m.telegram_id = none →
       stripe_webhook_credit users m = (users, .badRequest)) ∧
    (∀ (users : List UserRec) (uid : Int) (u : UserRec),
       get_user users uid = some u → 2 < u.priority_level →
         get_user_priority ((stripe_webhook_credit users
             { telegram_id := some uid, package_valid := true,
               points_awarded := none, priority_boost := none }).1) uid = 2 ∧
         get_user_points ((stripe_webhook_credit users
             { telegram_id := some uid, package_valid := true,
               points_awarded := none, priority_boost := none }).1) uid
           = u.points) ∧
    (∀ (q : List JobRecord) (jid : Nat) (st : String) (urls : List String)
       (err : Option String) (t : Nat),
       statusOf (update_generation_job_status q jid st urls err t) jid
         = (statusOf q jid).map (fun _ => st)) := by
  refine ⟨?_, ?_, statusOf_update⟩
  · intro users m hm
    unfold stripe_webhook_credit
    rw [hm]
  · intro users uid u h hlt
    have h1 : get_user ((update_user_points users uid 0).1) uid
        = some { u with points := u.points + 0 } :=
      get_user_after_update_points 0 h
    have hu0 : ({ u with points := u.points + 0 } : UserRec) = u := by
      rw [Int.add_zero]
    rw [hu0] at h1
    have h2 : get_user ((update_user_priority
        ((update_user_points users uid 0).1) uid 2).1) uid
        = some { u with priority_level := 2 } :=
      get_user_after_update_priority h1 hlt
    constructor
    · simp only [stripe_webhook_credit, if_pos]
      unfold get_user_priority
      rw [h2]
    · simp only [stripe_webhook_credit, if_pos]
      unfold get_user_points
      rw [h2]

/-- Witness for the amended C9: the malformed-id rejection and the
defaulted mutation at a concrete account of tier 3. -/
theorem webhook_validation_witness :
    stripe_webhook_credit [sampleUser 500 3]
        { telegram_id := none, package_valid := true,
          points_awarded := some 5, priority_boost := some 1 }
        = ([sampleUser 500 3], .badRequest) ∧
      get_user_priority ((stripe_webhook_credit [sampleUser 500 3]
          { telegram_id := some 7, package_valid := true,
            points_awarded := none, priority_boost := none }).1) 7 = 2 ∧
      get_user_points ((stripe_webhook_credit [sampleUser 500 3]
          { telegram_id := some 7, package_valid := true,
            points_awarded := none, priority_boost := none }).1) 7
        = (sampleUser 500 3).points ∧
      statusOf (update_generation_job_status [sampleJob 0 1 0 "processing"]
          0 "bogus" [] none 1) 0
        = (statusOf [sampleJob 0 1 0 "processing"] 0).map (fun _ => "bogus") :=
  ⟨webhook_validation_spec.1 [sampleUser 500 3] _ rfl,
   (webhook_validation_spec.2.1 [sampleUser 500 3] 7 (sampleUser 500 3)
     (by decide) (by decide)).1,
   (webhook_validation_spec.2.1 [sampleUser 500 3] 7 (sampleUser 500 3)
     (by decide) (by decide)).2,
   webhook_validation_spec.2.2 [sampleJob 0 1 0 "processing"] 0 "bogus"
     [] none 1⟩

/-! ### C1: concurrent claims — at most one winner per job

Each worker runs the two phases of `get_next_generation_job` as two
separate atomic accesses to the shared table, so an arbitrary
interleaving of a pool of workers is a sequence of `Step`s. -/

/-- Progress of one worker through `get_next_generation_job`: before the
phase-1 select, holding the id of the row it read, or done with either a
claimed job id or empty hands. -/
inductive Phase where
  | idle
  | selected (jid : Nat)
  | finished (res : Option Nat)
deriving DecidableEq

/-- A pool of workers over one shared queue table. -/
structure Sys where
  q : List JobRecord
  ws : Multiset Phase

/-- Interleaved execution: one worker runs phase 1 (the select) or
phase 2 (the conditional update) of `get_next_generation_job` against
the current table. A worker whose conditional update matched no row
(`update_response.data` empty) finishes empty-handed, exactly as the
code returns `None` for that call. -/
inductive Step : Sys → Sys → Prop where
  | selectNone (q : List JobRecord) (rest : Multiset Phase) :
      selectNextPending q = none →
      Step ⟨q, .idle ::ₘ rest⟩ ⟨q, .finished none ::ₘ rest⟩
  | selectSome (q : List JobRecord) (rest : Multiset Phase)
      (j : JobRecord) :
      selectNextPending q = some j →
      Step ⟨q, .idle ::ₘ rest⟩ ⟨q, .selected j.id ::ₘ rest⟩
  | updateWin (q : List JobRecord) (rest : Multiset Phase)
      (jid now : Nat) :
      condApplied q jid = true →
      Step ⟨q, .selected jid ::ₘ rest⟩
        ⟨applyClaim q jid now, .finished (some jid) ::ₘ rest⟩
  | updateLose (q : List JobRecord) (rest : Multiset Phase) (jid : Nat) :
      condApplied q jid = false →
      Step ⟨q, .selected jid ::ₘ rest⟩ ⟨q, .finished none ::ₘ rest⟩

/-- Reachability under interleaved worker steps. -/
def Reach : Sys → Sys → Prop := Relation.ReflTransGen Step

/-- No row with id `k` is still pending. -/
def noPendingFor (q : List JobRecord) (k : Nat) : Prop :=
  ∀ r ∈ q, r.id = k → r.status ≠ "pending"

/-- The mutual-exclusion invariant: at most one worker has claimed job
`k`, and when one has, no row with id `k` is pending any more. -/
def ClaimInv (s : Sys) : Prop :=
  ∀ k : Nat, Multiset.count (Phase.finished (some k)) s.ws ≤ 1 ∧
    (Multiset.count (Phase.finished (some k)) s.ws = 1 →
      noPendingFor s.q k)

lemma applyClaim_noPendingFor_self (q : List JobRecord) (k now : Nat) :
    noPendingFor (applyClaim q k now) k := by
  intro r hr hrid
  unfold applyClaim at hr
  obtain ⟨r0, hr0, rfl⟩ := List.mem_map.mp hr
  by_cases hcnd : (r0.id == k && r0.status == "pending") = true
  · rw [if_pos hcnd]
    show "processing" ≠ "pending"
    decide
  · rw [if_neg hcnd] at hrid ⊢
    intro hp
    exact hcnd (by simp [hrid, hp])

lemma applyClaim_preserves_noPendingFor {q : List JobRecord} {k : Nat}
    (jid now : Nat) (h : noPendingFor q k) :
    noPendingFor (applyClaim q jid now) k := by
  intro r hr hrid
  unfold applyClaim at hr
  obtain ⟨r0, hr0, rfl⟩ := List.mem_map.mp hr
  by_cases hcnd : (r0.id == jid && r0.status == "pending") = true
  · rw [if_pos hcnd]
    show "processing" ≠ "pending"
    decide
  · rw [if_neg hcnd] at hrid ⊢
    exact h r0 hr0 hrid

lemma condApplied_exists_pending {q : List JobRecord} {jid : Nat}
    (h : condApplied q jid = true) :
    ∃ r ∈ q, r.id = jid ∧ r.status = "pending" := by
  unfold condApplied at h
  rw [List.any_eq_true] at h
  obtain ⟨r, hr, hcond⟩ := h
  refine ⟨r, hr, ?_⟩
  simpa using hcond

lemma step_preserves_claimInv {s s2 : Sys} (h : Step s s2)
    (hinv : ClaimInv s) : ClaimInv s2 := by
  cases h with
  | selectNone q rest hsel =>
      intro k
      have hk := hinv k
      simpa [Multiset.count_cons] using hk
  | selectSome q rest j hsel =>
      intro k
      have hk := hinv k
      simpa [Multiset.count_cons] using hk
  | updateLose q rest jid hc =>
      intro k
      have hk := hinv k
      simpa [Multiset.count_cons] using hk
  | updateWin q rest jid now hc =>
      intro k
      have hk := hinv k
      by_cases hkj : k = jid
      · subst hkj
        have hcount0 : Multiset.count (Phase.finished (some k)) rest = 0 := by
          by_contra hne
          have h1 : Multiset.count (Phase.finished (some k)) rest = 1 := by
            have hle := hk.1
            simp [Multiset.count_cons] at hle
            omega
          have hnp := hk.2 (by simp [Multiset.count_cons, h1])
          obtain ⟨r, hr, hrid, hrp⟩ := condApplied_exists_pending hc
          exact hnp r hr hrid hrp
        constructor
        · simp [Multiset.count_cons, hcount0]
        · intro _
          exact applyClaim_noPendingFor_self q k now
      · constructor
        · have hle := hk.1
          simp only [Multiset.count_cons] at hle ⊢
          simp only [Phase.finished.injEq, Option.some.injEq] at hle ⊢
          simp [hkj] at hle ⊢
          omega
        · intro hc1
          have hold : Multiset.count (Phase.finished (some k))
              (Phase.selected jid ::ₘ rest) = 1 := by
            simp only [Multiset.count_cons] at hc1 ⊢
            simp only [Phase.finished.injEq, Option.some.injEq] at hc1 ⊢
            simp [hkj] at hc1 ⊢
            omega
          exact applyClaim_preserves_noPendingFor jid now (hk.2 hold)

lemma claimInv_init (q0 : List JobRecord) (n : Nat) :
    ClaimInv ⟨q0, Multiset.replicate n Phase.idle⟩ := by
  intro k
  have hc : Multiset.count (Phase.finished (some k))
      (Multiset.replicate n Phase.idle) = 0 := by
    simp [Multiset.count_replicate]
  exact ⟨by simp [hc], fun h1 => absurd (hc ▸ h1) (by decide)⟩

/-- C1: under any interleaving of concurrent `get_next_generation_job`
calls against any initial table, each job id is returned by at most one
caller — a worker only returns a job when its conditional update
(`expected status pending`, `new status processing`) matched, a lost
race returns empty, and once a row is `processing` no later conditional
update on it can match. -/
theorem claim_mutual_exclusion (q0 : List JobRecord) (n : Nat) (s : Sys)
    (h : Reach ⟨q0, Multiset.replicate n Phase.idle⟩ s) (k : Nat) :
    Multiset.count (Phase.finished (some k)) s.ws ≤ 1 := by
  have hinv : ClaimInv s := by
    induction h with
    | refl => exact claimInv_init q0 n
    | tail hreach hstep ih => exact step_preserves_claimInv hstep ih
  exact (hinv k).1

/-- Witness for C1: two workers race for the single pending job; both
select it, one wins the conditional update, the other loses and
finishes empty — the job id is claimed exactly once. -/
theorem claim_mutual_exclusion_witness :
    Multiset.count (Phase.finished (some 0))
        (Phase.finished none ::ₘ Phase.finished (some 0) ::ₘ 0) ≤ 1 := by
  have t1 : Step ⟨[sampleJob 0 1 0 "pending"],
      Phase.idle ::ₘ Phase.idle ::ₘ 0⟩
      ⟨[sampleJob 0 1 0 "pending"],
        Phase.selected 0 ::ₘ Phase.idle ::ₘ 0⟩ :=
    Step.selectSome _ (Phase.idle ::ₘ 0) (sampleJob 0 1 0 "pending")
      (by decide)
  have t2 : Step ⟨[sampleJob 0 1 0 "pending"],
      Phase.selected 0 ::ₘ Phase.idle ::ₘ 0⟩
      ⟨[sampleJob 0 1 0 "pending"],
        Phase.selected 0 ::ₘ Phase.selected 0 ::ₘ 0⟩ := by
    have hs := Step.selectSome [sampleJob 0 1 0 "pending"]
      (Phase.selected 0 ::ₘ 0) (sampleJob 0 1 0 "pending") (by decide)
    rw [show (Phase.idle ::ₘ Phase.selected 0 ::ₘ (0 : Multiset Phase))
        = (Phase.selected 0 ::ₘ Phase.idle ::ₘ 0) from
      Multiset.cons_swap _ _ _] at hs
    exact hs
  have t3 : Step ⟨[sampleJob 0 1 0 "pending"],
      Phase.selected 0 ::ₘ Phase.selected 0 ::ₘ 0⟩
      ⟨applyClaim [sampleJob 0 1 0 "pending"] 0 5,
        Phase.finished (some 0) ::ₘ Phase.selected 0 ::ₘ 0⟩ :=
    Step.updateWin _ (Phase.selected 0 ::ₘ 0) 0 5 (by decide)
  have t4 : Step ⟨applyClaim [sampleJob 0 1 0 "pending"] 0 5,
      Phase.finished (some 0) ::ₘ Phase.selected 0 ::ₘ 0⟩
      ⟨applyClaim [sampleJob 0 1 0 "pending"] 0 5,
        Phase.finished none ::ₘ Phase.finished (some 0) ::ₘ 0⟩ := by
    have hs := Step.updateLose (applyClaim [sampleJob 0 1 0 "pending"] 0 5)
      (Phase.finished (some 0) ::ₘ 0) 0 (by decide)
    rw [show (Phase.selected 0 ::ₘ Phase.finished (some 0)
          ::ₘ (0 : Multiset Phase))
        = (Phase.finished (some 0) ::ₘ Phase.selected 0 ::ₘ 0) from
      Multiset.cons_swap _ _ _] at hs
    exact hs
  exact claim_mutual_exclusion [sampleJob 0 1 0 "pending"] 2
    ⟨applyClaim [sampleJob 0 1 0 "pending"] 0 5,
      Phase.finished none ::ₘ Phase.finished (some 0) ::ₘ 0⟩
    (Relation.ReflTransGen.tail
      (Relation.ReflTransGen.tail
        (Relation.ReflTransGen.tail
          (Relation.ReflTransGen.single t1) t2) t3) t4) 0

end Monkeyh
